import Mathlib

/-! Verification of the wavey arcade game's core logic (src/main.rs).

The geometry, asteroid model, radar sweep and level logic are embedded
shallowly.  Rust `f32` arithmetic is modelled as exact arithmetic in a
linear ordered field `α` (instantiated at `ℚ` for executable checks and
at `ℝ` where trigonometric identities are needed); `usize` is modelled
as `ℕ`, with explicit wrap-around modulo `2 ^ 64` at the one subtraction
where the source can underflow.  The `f32` functions `cos`, `sin` and
the constant `PI` are abstracted into a `Trig` record, instantiated with
`Real.cos`, `Real.sin`, `Real.pi` for claims that need their identities.
Rust panics are modelled as `Option.none`.
-/

namespace Wavey

/-- Constant `ANGLE_PRECISION` from main.rs (`usize`). -/
def ANGLE_PRECISION : ℕ := 100

/-- Constant `SCAN_SPEED` from main.rs (`usize`). -/
def SCAN_SPEED : ℕ := 7

/-- Constant `NUM_ASTEROIDS` from main.rs (`usize`). -/
def NUM_ASTEROIDS : ℕ := 10

section Geometry

variable {α : Type} [LinearOrderedField α]

/-- `macroquad::prelude::Vec2`: a 2D coordinate, value type. -/
structure Vec2 (α : Type) where
  x : α
  y : α
deriving DecidableEq

/-- `struct Line { a: Vec2, b: Vec2 }` from main.rs. -/
structure Line (α : Type) where
  a : Vec2 α
  b : Vec2 α
deriving DecidableEq

/-- `Line::new`: panics (modelled as `none`) when `a.x == b.x && a.y == b.y`. -/
def Line.new (a b : Vec2 α) : Option (Line α) :=
  if a.x = b.x ∧ a.y = b.y then none else some ⟨a, b⟩

/-- The cross product computed at the start of `Line::near`:
`(point.y - a.y) * (b.x - a.x) - (point.x - a.x) * (b.y - a.y)`. -/
def Line.cross (l : Line α) (point : Vec2 α) : α :=
  (point.y - l.a.y) * (l.b.x - l.a.x) - (point.x - l.a.x) * (l.b.y - l.a.y)

/-- The dot product computed in `Line::near`:
`(point.x - a.x) * (b.x - a.x) + (point.y - a.y) * (b.y - a.y)`. -/
def Line.dot (l : Line α) (point : Vec2 α) : α :=
  (point.x - l.a.x) * (l.b.x - l.a.x) + (point.y - l.a.y) * (l.b.y - l.a.y)

/-- The squared segment length computed in `Line::near`:
`(b.x - a.x).powi(2) + (b.y - a.y).powi(2)`. -/
def Line.squared_length (l : Line α) : α :=
  (l.b.x - l.a.x) ^ 2 + (l.b.y - l.a.y) ^ 2

/-- `Line::near(point, tolerance)` from main.rs, lines 42-63, with the three
early returns translated as nested conditionals. -/
def Line.near (l : Line α) (point : Vec2 α) (tolerance : α) : Bool :=
  if |l.cross point| > tolerance then false -- Not collinear
  else if l.dot point < tolerance then false -- Point is before `a`
  else if l.dot point > l.squared_length then false -- Point is after `b`
  else true

end Geometry

section Model

variable {α : Type} [LinearOrderedField α]

/-- Abstraction of the `f32` trigonometric interface used by the source:
`std::f32::consts::PI`, `f32::cos`, `f32::sin`.  Claims that depend on
trigonometric identities instantiate it with `Real.pi`, `Real.cos`,
`Real.sin`; executable checks use concrete rational stand-ins. -/
structure Trig (α : Type) where
  pi : α
  cos : α → α
  sin : α → α

/-- `struct Asteroid { pos, sides: u8, radius, rotation }` from main.rs.
`sides` is a `u8`; it is modelled as `ℕ` (all values produced by the
program lie in `[3, 8)`). -/
structure Asteroid (α : Type) where
  pos : Vec2 α
  sides : ℕ
  radius : α
  rotation : α

/-- `Asteroid::vertices`: vertex `i` is at angle
`rotation + i * (2 * PI / sides)` from the center, at distance `radius`. -/
def Asteroid.vertices (T : Trig α) (ast : Asteroid α) : List (Vec2 α) :=
  (List.range ast.sides).map fun (i : ℕ) =>
    let angle := ast.rotation + (i : α) * (2 * T.pi / (ast.sides : α))
    ⟨ast.pos.x + ast.radius * T.cos angle, ast.pos.y + ast.radius * T.sin angle⟩

/-- The loop body of `Asteroid::edges`: for each index `i` in the given list,
connect `vertices[i]` to `vertices[(i + 1) % vertices.len()]` with
`Line::new` (whose panic propagates as `none`). -/
def buildEdges (vs : List (Vec2 α)) : List ℕ → Option (List (Line α))
  | [] => some []
  | i :: rest =>
    match Line.new (vs.getD i ⟨0, 0⟩) (vs.getD ((i + 1) % vs.length) ⟨0, 0⟩) with
    | none => none
    | some e =>
      match buildEdges vs rest with
      | none => none
      | some es => some (e :: es)

/-- `Asteroid::edges`: the loop `for i in 0..vertices.len()` pushing
`Line::new(vertices[i], vertices[(i+1) % vertices.len()])`. -/
def Asteroid.edges (T : Trig α) (ast : Asteroid α) : Option (List (Line α)) :=
  buildEdges (ast.vertices T) (List.range (ast.vertices T).length)

/-- The ranges `rand` draws `Asteroid` fields from in
`Asteroid::random_asteroid`: `gen_range(0.0..=screen_width())`,
`gen_range(0.0..=screen_height())`, `gen_range(3..8)`,
`gen_range(5.0..40.0)`, `gen_range(0.0..360.0)`. -/
def Asteroid.inRanges (w h : α) (a : Asteroid α) : Prop :=
  0 ≤ a.pos.x ∧ a.pos.x ≤ w ∧ 0 ≤ a.pos.y ∧ a.pos.y ≤ h ∧
    3 ≤ a.sides ∧ a.sides < 8 ∧ (5 : α) ≤ a.radius ∧ a.radius < 40 ∧
    (0 : α) ≤ a.rotation ∧ a.rotation < 360

instance (w h : α) (a : Asteroid α) : Decidable (a.inRanges w h) := by
  unfold Asteroid.inRanges; infer_instance

/-- `Asteroid::random_asteroid(ship)`: rejection sampling.  The random
number generator is modelled as a stream `s` of candidate asteroids
(one candidate per recursive call); `i` is the index of the next
candidate and `fuel` bounds the recursion depth (`none` models
non-termination when the fuel runs out, and also the `Line::new` panic
inside `edges()`).  A candidate is rejected when any of its edges is
near the ship with tolerance `SHIP_SIZE = 10`. -/
def Asteroid.random_asteroid (T : Trig α) (ship : Vec2 α) (s : ℕ → Asteroid α) :
    ℕ → ℕ → Option (Asteroid α)
  | _, 0 => none
  | i, fuel + 1 =>
    let asteroid := s i
    match asteroid.edges T with
    | none => none
    | some es =>
      if es.any fun edge => edge.near ship (10 : α) then
        Asteroid.random_asteroid T ship s (i + 1) fuel
      else some asteroid

/-- `polar2euclidean(center, radius, angle)` from main.rs. -/
def polar2euclidean (T : Trig α) (center : Vec2 α) (radius angle : α) : Vec2 α :=
  ⟨center.x + radius * T.cos angle, center.y + radius * T.sin angle⟩

/-- Lookup in the exclusion map, modelled as an association list read
front-to-back (newest entry first), matching `HashMap::get`/
`contains_key` observationally. -/
def lookupA (k : ℕ) : List (ℕ × ℕ) → Option ℕ
  | [] => none
  | (k', v) :: rest => if k' = k then some v else lookupA k rest

/-- Number of entries of the exclusion map carrying key `k`; since an
insertion is modelled as a cons, this counts insertions of `k`. -/
def countA (k : ℕ) : List (ℕ × ℕ) → ℕ
  | [] => 0
  | (k', _) :: rest => (if k' = k then 1 else 0) + countA k rest

/-- `pixels_in_circle(center, radius, excluded_angles)` from main.rs:
for `angle in 0..=360*ANGLE_PRECISION`, skip angles present in the
exclusion map, otherwise emit
`(polar2euclidean(center, radius, angle / ANGLE_PRECISION), angle)`. -/
def pixels_in_circle (T : Trig α) (center : Vec2 α) (radius : α)
    (excluded_angles : List (ℕ × ℕ)) : List (Vec2 α × ℕ) :=
  (List.range (360 * ANGLE_PRECISION + 1)).filterMap fun angle =>
    if (lookupA angle excluded_angles).isSome then none
    else some (polar2euclidean T center radius ((angle : α) / (ANGLE_PRECISION : α)), angle)

/-- The per-sweep mutable state of `circle_render`: the exclusion map
(`excluded_angles`) and the accumulated contact points (`drawn_pixels`). -/
structure SweepState (α : Type) where
  excluded_angles : List (ℕ × ℕ)
  drawn_pixels : List (Vec2 α)
deriving DecidableEq

/-- The inner pixel loop of one `circle_render` frame: for each sampled
`(pixel, angle)`, if some edge is near the pixel with tolerance
`CLOSENESS_TOLERANCE = 3/10`, push the pixel and insert
`(angle, scan_radius)` into the exclusion map (first hit wins via the
`break`, modelled by `List.any`).  `HashMap::insert` is modelled as a
cons; the inserted angle is never already present (proved below), so
cons and insert agree. -/
def scanPixels (edges : List (Line α)) (scan_radius : ℕ) :
    List (Vec2 α × ℕ) → SweepState α → SweepState α
  | [], st => st
  | (pixel, angle) :: rest, st =>
    if edges.any fun edge => edge.near pixel (3 / 10 : α) then
      scanPixels edges scan_radius rest
        ⟨(angle, scan_radius) :: st.excluded_angles, st.drawn_pixels ++ [pixel]⟩
    else scanPixels edges scan_radius rest st

/-- One frame of `circle_render` at radius `scan_radius` (the drawing
calls have no effect on the sweep state and are omitted): sample the
circle against the current exclusion map, then run the pixel loop. -/
def circleStep (T : Trig α) (edges : List (Line α)) (center : Vec2 α)
    (scan_radius : ℕ) (st : SweepState α) : SweepState α :=
  scanPixels edges scan_radius
    (pixels_in_circle T center (scan_radius : α) st.excluded_angles) st

/-- The radii visited by `circle_render`'s loop
`(SHIP_SIZE as usize..screen_width() as usize).step_by(SCAN_SPEED)`,
i.e. `10, 17, 24, ...` below `w`. -/
def scanRadii (w : ℕ) : List ℕ :=
  List.range' 10 ((w - 10 + (SCAN_SPEED - 1)) / SCAN_SPEED) SCAN_SPEED

/-- The frame loop of `circle_render`: before each frame the interrupt
predicate (`interrupted_by_movement`, an input trace indexed by frame
number `i`) may end the sweep early. -/
def sweepLoop (T : Trig α) (edges : List (Line α)) (center : Vec2 α)
    (interrupt : ℕ → Bool) : List ℕ → ℕ → SweepState α → SweepState α
  | [], _, st => st
  | r :: rs, i, st =>
    if interrupt i then st
    else sweepLoop T edges center interrupt rs (i + 1) (circleStep T edges center r st)

/-- `circle_render(edges, center, destination, scans)` from main.rs,
returning the final sweep state.  `destination` and `scans` are only
drawn, and `w` is the ambient `screen_width()`; the interrupt input
trace is explicit. -/
def circle_render (T : Trig α) (edges : List (Line α)) (center destination : Vec2 α)
    (scans : ℕ) (w : ℕ) (interrupt : ℕ → Bool) : SweepState α :=
  let _ := destination -- used only for drawing
  let _ := scans -- used only for drawing
  sweepLoop T edges center interrupt (scanRadii w) 0 ⟨[], []⟩

/-- The scan branch of `play_level` (`if is_key_pressed(Space)`), given
the current budget: returns the new budget and how many sweeps were
started.  A zero budget is a no-op, otherwise `scans -= 1` and one
`circle_render` call. -/
def scanAction (scans : ℕ) : ℕ × ℕ :=
  if scans = 0 then (scans, 0) else (scans - 1, 1)

/-- `let mut scans = 12 - (level / 3) as usize;` from `play_level`:
`usize` subtraction, which wraps modulo `2 ^ 64` when `level / 3 > 12`
(in a debug build it would panic instead; either way it is not the
mathematical difference there). -/
def initScans (level : ℕ) : ℕ :=
  (((12 : ℤ) - ((level / 3 : ℕ) : ℤ)) % 2 ^ 64).toNat

/-- Squared Euclidean distance.  The source test
`ship.distance(destination) <= SHIP_SIZE + DST_SIZE` is modelled as
`dist2 ship destination ≤ (SHIP_SIZE + DST_SIZE) ^ 2`, equivalent since
both sides of the source comparison are nonnegative. -/
def dist2 (p q : Vec2 α) : α :=
  (p.x - q.x) ^ 2 + (p.y - q.y) ^ 2

/-- The collision loop of `play_level` (`for asteroid in &asteroids`):
returns `some true` on the first asteroid one of whose edges is near the
ship with tolerance `SHIP_SIZE = 10` (the `return false` path),
`some false` if no asteroid hits, `none` if `edges()` panics. -/
def shipHitsAsteroid (T : Trig α) (ship : Vec2 α) : List (Asteroid α) → Option Bool
  | [] => some false
  | asteroid :: rest =>
    match asteroid.edges T with
    | none => none
    | some es =>
      if es.any fun edge => edge.near ship (10 : α) then some true
      else shipHitsAsteroid T ship rest

/-- The end-of-frame outcome checks of `play_level` (lines 257-267):
`some (some false)` = Lost this frame, `some (some true)` = Won this
frame, `some none` = continue to the next frame, `none` = a panic in
`edges()`.  The collision check runs before the destination check. -/
def frameOutcome (T : Trig α) (asteroids : List (Asteroid α))
    (ship destination : Vec2 α) : Option (Option Bool) :=
  match shipHitsAsteroid T ship asteroids with
  | none => none
  | some true => some (some false)
  | some false =>
    if dist2 ship destination ≤ ((10 : α) + 5) ^ 2 then some (some true)
    else some none

/-- The acceptance condition of `random_asteroid`'s rejection loop: the
candidate's edges were constructed without panic and none of them is
near the ship with tolerance `SHIP_SIZE = 10`. -/
def isGoodCandidate (T : Trig α) (ship : Vec2 α) (a : Asteroid α) : Prop :=
  ∃ es, a.edges T = some es ∧ (es.any fun edge => edge.near ship (10 : α)) = false

end Model

/-- A concrete rational stand-in for the trigonometric interface, used
only to instantiate theorems on executable inputs. -/
def qTrig : Trig ℚ := ⟨3, fun x => x, fun x => x⟩

/-- A concrete asteroid used to instantiate theorems: with `qTrig` its
vertices are `(0,0)`, `(20,20)`, `(40,40)`. -/
def astW : Asteroid ℚ := ⟨⟨0, 0⟩, 3, 10, 0⟩

section GeometryTheorems

variable {α : Type} [LinearOrderedField α]

/-- Claim C1, counterexample.  The claim states that `near` accepts
exactly when `|cross| ≤ t ∧ 0 ≤ dot ∧ dot ≤ squared_length`, a negative
dot product being the only "projects before a" rejection.  On the
segment `(0,0)-(10,0)` with tolerance `1`, the point `(0,0)` has
`cross = 0` and `dot = 0`, so the claimed right-hand side holds, yet the
source rejects it because its test is `dot < tolerance`, not `dot < 0`. -/
theorem near_claimed_dot_window_counterexample :
    ((⟨⟨0, 0⟩, ⟨10, 0⟩⟩ : Line ℚ).a ≠ (⟨⟨0, 0⟩, ⟨10, 0⟩⟩ : Line ℚ).b) ∧ (0 : ℚ) ≤ 1 ∧
    ¬ ((Line.near (⟨⟨0, 0⟩, ⟨10, 0⟩⟩ : Line ℚ) ⟨0, 0⟩ 1 = true) ↔
        (|Line.cross (⟨⟨0, 0⟩, ⟨10, 0⟩⟩ : Line ℚ) ⟨0, 0⟩| ≤ 1 ∧
          0 ≤ Line.dot (⟨⟨0, 0⟩, ⟨10, 0⟩⟩ : Line ℚ) ⟨0, 0⟩ ∧
          Line.dot (⟨⟨0, 0⟩, ⟨10, 0⟩⟩ : Line ℚ) ⟨0, 0⟩ ≤
            Line.squared_length (⟨⟨0, 0⟩, ⟨10, 0⟩⟩ : Line ℚ))) := by
  refine ⟨by simp [Vec2.mk.injEq], by norm_num, fun h => ?_⟩
  have htrue : Line.near (⟨⟨0, 0⟩, ⟨10, 0⟩⟩ : Line ℚ) ⟨0, 0⟩ 1 = true :=
    h.mpr (by norm_num [Line.cross, Line.dot, Line.squared_length])
  have hfalse : Line.near (⟨⟨0, 0⟩, ⟨10, 0⟩⟩ : Line ℚ) ⟨0, 0⟩ 1 = false := by
    norm_num [Line.near, Line.cross, Line.dot, Line.squared_length]
  rw [htrue] at hfalse
  exact Bool.noConfusion hfalse

/-- Claim C1, amended: for a segment with distinct endpoints and
tolerance `t ≥ 0`, `near(p, t)` returns true iff `|cross| ≤ t`, the dot
product is at least `t` (the source rejects on `dot < tolerance`, not
on `dot < 0`), and the dot product does not exceed the squared segment
length. -/
theorem near_iff_cross_le_and_dot_window (l : Line α) (p : Vec2 α) (t : α)
    (hab : l.a ≠ l.b) (ht : 0 ≤ t) :
    l.near p t = true ↔
      |l.cross p| ≤ t ∧ t ≤ l.dot p ∧ l.dot p ≤ l.squared_length := by
  unfold Line.near
  split_ifs with h1 h2 h3
  · simp only [Bool.false_eq_true, false_iff]
    rintro ⟨hc, -, -⟩; exact absurd hc (not_le.mpr h1)
  · simp only [Bool.false_eq_true, false_iff]
    rintro ⟨-, hd, -⟩; exact absurd hd (not_le.mpr h2)
  · simp only [Bool.false_eq_true, false_iff]
    rintro ⟨-, -, hl⟩; exact absurd hl (not_le.mpr h3)
  · simp only [true_iff]
    exact ⟨not_lt.mp h1, not_lt.mp h2, not_lt.mp h3⟩

/-- Witness for the amended claim C1 at the segment `(0,0)-(10,0)`,
point `(5,0)`, tolerance `1`. -/
theorem near_iff_cross_le_and_dot_window_witness :
    Line.near (⟨⟨0, 0⟩, ⟨10, 0⟩⟩ : Line ℚ) ⟨5, 0⟩ 1 = true ↔
      |Line.cross (⟨⟨0, 0⟩, ⟨10, 0⟩⟩ : Line ℚ) ⟨5, 0⟩| ≤ 1 ∧
        1 ≤ Line.dot (⟨⟨0, 0⟩, ⟨10, 0⟩⟩ : Line ℚ) ⟨5, 0⟩ ∧
        Line.dot (⟨⟨0, 0⟩, ⟨10, 0⟩⟩ : Line ℚ) ⟨5, 0⟩ ≤
          Line.squared_length (⟨⟨0, 0⟩, ⟨10, 0⟩⟩ : Line ℚ) :=
  near_iff_cross_le_and_dot_window _ _ _ (by simp [Vec2.mk.injEq]) (by norm_num)

/-- Claim C2, counterexample.  The claim states that a point at
perpendicular distance `> t` from the infinite line is never reported
near.  For the segment `a = (0,0)`, `b = (1/2,0)` (length `1/2`), point
`p = (3/10, 1/5)` and `t = 3/20`: the perpendicular distance is
`|cross| / length = (1/10) / (1/2) = 1/5 > 3/20 = t` — stated below in
squared, root-free form `cross ^ 2 > t ^ 2 * squared_length` — yet
`near` returns true, because the source compares the raw cross product
`|cross| = 1/10 ≤ t` instead of the true distance. -/
theorem near_perpendicular_distance_counterexample :
    ((⟨⟨0, 0⟩, ⟨1/2, 0⟩⟩ : Line ℚ).a ≠ (⟨⟨0, 0⟩, ⟨1/2, 0⟩⟩ : Line ℚ).b) ∧
    (0 : ℚ) ≤ 3/20 ∧
    (Line.cross (⟨⟨0, 0⟩, ⟨1/2, 0⟩⟩ : Line ℚ) ⟨3/10, 1/5⟩) ^ 2 >
      (3/20 : ℚ) ^ 2 * Line.squared_length (⟨⟨0, 0⟩, ⟨1/2, 0⟩⟩ : Line ℚ) ∧
    Line.near (⟨⟨0, 0⟩, ⟨1/2, 0⟩⟩ : Line ℚ) ⟨3/10, 1/5⟩ (3/20) = true := by
  refine ⟨by simp [Vec2.mk.injEq], by norm_num, ?_, ?_⟩
  · norm_num [Line.cross, Line.squared_length]
  · norm_num [Line.near, Line.cross, Line.dot, Line.squared_length, abs_le]

/-- Claim C2, amended: the quantity the source actually bounds is the
raw cross product (the perpendicular distance multiplied by the segment
length): whenever `|cross| > t`, `near` returns false regardless of
where the point projects. -/
theorem near_false_of_cross_gt (l : Line α) (p : Vec2 α) (t : α)
    (h : |l.cross p| > t) : l.near p t = false := by
  unfold Line.near
  rw [if_pos h]

/-- Witness for the amended claim C2 at the segment `(0,0)-(10,0)`,
point `(0,5)`, tolerance `1` (`cross = 50`). -/
theorem near_false_of_cross_gt_witness :
    Line.near (⟨⟨0, 0⟩, ⟨10, 0⟩⟩ : Line ℚ) ⟨0, 5⟩ 1 = false :=
  near_false_of_cross_gt _ _ _ (by norm_num [Line.cross])

end GeometryTheorems

section LevelTheorems

set_option maxRecDepth 8000

variable {α : Type} [LinearOrderedField α]

/-- Claim C4, counterexample.  The claim asserts the starting budget
`12 - (level / 3)` is computed without integer wraparound for every
level index 1 through 49.  At level 39 (reachable in `play_game`'s
`for level in 1..50`), `level / 3 = 13 > 12` and the `usize`
subtraction wraps to `2 ^ 64 - 1` (a debug build would panic). -/
theorem initScans_wraps_at_level_39 :
    (1 ≤ 39 ∧ 39 ≤ 49) ∧
    ¬ ((initScans 39 : ℤ) = 12 - ((39 / 3 : ℕ) : ℤ)) ∧
    initScans 39 = 2 ^ 64 - 1 := by
  refine ⟨by norm_num, ?_, ?_⟩ <;> decide

/-- Claim C4, amended: triggering the scan action with a zero budget is
a no-op (budget stays zero, no sweep starts); with a positive budget it
decrements the budget by one and starts exactly one sweep; and the
starting budget `12 - (level / 3)` is computed without wraparound only
for level indices 1 through 38 (from level 39 on, `level / 3` exceeds
12 and the `usize` subtraction wraps). -/
theorem scan_budget_spec :
    scanAction 0 = (0, 0) ∧
    (∀ s : ℕ, 0 < s → scanAction s = (s - 1, 1)) ∧
    (∀ level : ℕ, level ≤ 38 → 1 ≤ level →
      (initScans level : ℤ) = 12 - ((level / 3 : ℕ) : ℤ) ∧
        initScans level = 12 - level / 3) := by
  refine ⟨rfl, fun s hs => ?_, by decide⟩
  unfold scanAction
  rw [if_neg hs.ne']

/-- Witness for the amended claim C4: a scan with budget 5 leaves
budget 4 and starts one sweep; level 3 starts with `12 - 1 = 11`
scans, computed without wraparound. -/
theorem scan_budget_spec_witness :
    scanAction 5 = (5 - 1, 1) ∧
    ((initScans 3 : ℤ) = 12 - ((3 / 3 : ℕ) : ℤ) ∧ initScans 3 = 12 - 3 / 3) :=
  ⟨scan_budget_spec.2.1 5 (by norm_num),
    scan_budget_spec.2.2 3 (by norm_num) (by norm_num)⟩

/-- Helper: the collision loop returns a value (never reaches a panic)
when every asteroid's `edges()` call succeeds. -/
theorem shipHitsAsteroid_isSome (T : Trig α) (ship : Vec2 α) :
    ∀ asteroids : List (Asteroid α), (∀ a ∈ asteroids, (a.edges T).isSome) →
      (shipHitsAsteroid T ship asteroids).isSome
  | [], _ => rfl
  | ast :: rest, hdef => by
    obtain ⟨es, hes⟩ := Option.isSome_iff_exists.mp (hdef ast (List.mem_cons_self _ _))
    rw [shipHitsAsteroid, hes]
    by_cases hany : (es.any fun edge => edge.near ship (10 : α)) = true
    · simp [hany]
    · simp only [hany, if_false, Bool.false_eq_true]
      exact shipHitsAsteroid_isSome T ship rest fun a ha =>
        hdef a (List.mem_cons_of_mem _ ha)

/-- Helper: the collision loop reports a hit exactly when some asteroid
has an edge near the ship with tolerance `SHIP_SIZE = 10`. -/
theorem shipHitsAsteroid_eq_true_iff (T : Trig α) (ship : Vec2 α) :
    ∀ asteroids : List (Asteroid α), (∀ a ∈ asteroids, (a.edges T).isSome) →
      (shipHitsAsteroid T ship asteroids = some true ↔
        ∃ a ∈ asteroids, ∃ es, a.edges T = some es ∧
          ∃ e ∈ es, e.near ship (10 : α) = true)
  | [], _ => by simp [shipHitsAsteroid]
  | ast :: rest, hdef => by
    obtain ⟨es, hes⟩ := Option.isSome_iff_exists.mp (hdef ast (List.mem_cons_self _ _))
    rw [shipHitsAsteroid, hes]
    by_cases hany : (es.any fun edge => edge.near ship (10 : α)) = true
    · simp only [hany, if_true, true_iff]
      obtain ⟨e, he, hne⟩ := List.any_eq_true.mp hany
      exact ⟨ast, List.mem_cons_self _ _, es, hes, e, he, hne⟩
    · simp only [hany, if_false, Bool.false_eq_true]
      rw [shipHitsAsteroid_eq_true_iff T ship rest
        fun a ha => hdef a (List.mem_cons_of_mem _ ha)]
      constructor
      · rintro ⟨a, ha, hrest⟩
        exact ⟨a, List.mem_cons_of_mem _ ha, hrest⟩
      · rintro ⟨a, ha, es', hes', e, he, hne⟩
        rcases List.mem_cons.mp ha with rfl | ha
        · rw [hes] at hes'
          obtain rfl := Option.some.inj hes'
          exact absurd (List.any_eq_true.mpr ⟨e, he, hne⟩) hany
        · exact ⟨a, ha, es', hes', e, he, hne⟩

/-- Claim C5: in each gameplay frame, provided no `edges()` call panics,
the end-of-frame checks resolve to Lost (`some (some false)`) exactly
when some asteroid edge is near the ship under tolerance `SHIP_SIZE`,
to Won (`some (some true)`) exactly when there is no such hit and the
ship is within `SHIP_SIZE + DST_SIZE` of the destination (squared-
distance form), and to "continue" (`some none`) exactly when neither
condition holds — the state is unchanged by these checks. -/
theorem frameOutcome_spec (T : Trig α) (asteroids : List (Asteroid α))
    (ship destination : Vec2 α)
    (hdef : ∀ a ∈ asteroids, (a.edges T).isSome) :
    (frameOutcome T asteroids ship destination = some (some false) ↔
      ∃ a ∈ asteroids, ∃ es, a.edges T = some es ∧
        ∃ e ∈ es, e.near ship (10 : α) = true) ∧
    (frameOutcome T asteroids ship destination = some (some true) ↔
      ¬ (∃ a ∈ asteroids, ∃ es, a.edges T = some es ∧
          ∃ e ∈ es, e.near ship (10 : α) = true) ∧
        dist2 ship destination ≤ ((10 : α) + 5) ^ 2) ∧
    (frameOutcome T asteroids ship destination = some none ↔
      ¬ (∃ a ∈ asteroids, ∃ es, a.edges T = some es ∧
          ∃ e ∈ es, e.near ship (10 : α) = true) ∧
        ¬ dist2 ship destination ≤ ((10 : α) + 5) ^ 2) := by
  obtain ⟨b, hb⟩ := Option.isSome_iff_exists.mp (shipHitsAsteroid_isSome T ship asteroids hdef)
  have hiff := shipHitsAsteroid_eq_true_iff T ship asteroids hdef
  cases b
  · have hnot : ¬ ∃ a ∈ asteroids, ∃ es, a.edges T = some es ∧
        ∃ e ∈ es, e.near ship (10 : α) = true := by
      rw [← hiff, hb]; simp
    unfold frameOutcome
    rw [hb]
    by_cases hdst : dist2 ship destination ≤ ((10 : α) + 5) ^ 2
    · rw [if_pos hdst]
      exact ⟨iff_of_false (by simp) hnot, iff_of_true rfl ⟨hnot, hdst⟩,
        iff_of_false (by simp) fun h => h.2 hdst⟩
    · rw [if_neg hdst]
      exact ⟨iff_of_false (by simp) hnot, iff_of_false (by simp) fun h => hdst h.2,
        iff_of_true rfl ⟨hnot, hdst⟩⟩
  · have hhit : ∃ a ∈ asteroids, ∃ es, a.edges T = some es ∧
        ∃ e ∈ es, e.near ship (10 : α) = true := hiff.mp hb
    unfold frameOutcome
    rw [hb]
    exact ⟨iff_of_true rfl hhit, iff_of_false (by simp) fun h => h.1 hhit,
      iff_of_false (by simp) fun h => h.1 hhit⟩

/-- Helper: the concrete vertices of the witness asteroid `astW` under
the rational trig stand-in `qTrig`. -/
theorem astW_vertices : astW.vertices qTrig = [⟨0, 0⟩, ⟨20, 20⟩, ⟨40, 40⟩] := by
  norm_num [Asteroid.vertices, astW, qTrig,
    show List.range 3 = [0, 1, 2] from rfl, Vec2.mk.injEq]

/-- Helper: the concrete edges of the witness asteroid `astW` under
`qTrig`. -/
theorem astW_edges :
    astW.edges qTrig =
      some [⟨⟨0, 0⟩, ⟨20, 20⟩⟩, ⟨⟨20, 20⟩, ⟨40, 40⟩⟩, ⟨⟨40, 40⟩, ⟨0, 0⟩⟩] := by
  unfold Asteroid.edges
  rw [astW_vertices]
  norm_num [buildEdges, Line.new, List.getD,
    show List.range 3 = [0, 1, 2] from rfl, Vec2.mk.injEq]

/-- Witness for claim C5 with the single asteroid `astW`, the ship at
`(100, 0)` (hit by no edge) and the destination at the ship's position:
the frame resolves to Won. -/
theorem frameOutcome_spec_witness :
    (frameOutcome qTrig [astW] ⟨100, 0⟩ ⟨100, 0⟩ = some (some false) ↔
      ∃ a ∈ [astW], ∃ es, a.edges qTrig = some es ∧
        ∃ e ∈ es, e.near (⟨100, 0⟩ : Vec2 ℚ) 10 = true) ∧
    (frameOutcome qTrig [astW] ⟨100, 0⟩ ⟨100, 0⟩ = some (some true) ↔
      ¬ (∃ a ∈ [astW], ∃ es, a.edges qTrig = some es ∧
          ∃ e ∈ es, e.near (⟨100, 0⟩ : Vec2 ℚ) 10 = true) ∧
        dist2 (⟨100, 0⟩ : Vec2 ℚ) ⟨100, 0⟩ ≤ ((10 : ℚ) + 5) ^ 2) ∧
    (frameOutcome qTrig [astW] ⟨100, 0⟩ ⟨100, 0⟩ = some none ↔
      ¬ (∃ a ∈ [astW], ∃ es, a.edges qTrig = some es ∧
          ∃ e ∈ es, e.near (⟨100, 0⟩ : Vec2 ℚ) 10 = true) ∧
        ¬ dist2 (⟨100, 0⟩ : Vec2 ℚ) ⟨100, 0⟩ ≤ ((10 : ℚ) + 5) ^ 2) :=
  frameOutcome_spec qTrig [astW] ⟨100, 0⟩ ⟨100, 0⟩
    (by intro a ha; rw [List.mem_singleton.mp ha, astW_edges]; rfl)

/-- Claim C10: when the ship is simultaneously near an asteroid edge
(tolerance `SHIP_SIZE`) and within `SHIP_SIZE + DST_SIZE` of the
destination, the frame resolves to Lost: the collision check runs
before the destination check, so Lost takes precedence over Won. -/
theorem frameOutcome_lost_precedence (T : Trig α) (asteroids : List (Asteroid α))
    (ship destination : Vec2 α)
    (hdef : ∀ a ∈ asteroids, (a.edges T).isSome)
    (hhit : ∃ a ∈ asteroids, ∃ es, a.edges T = some es ∧
      ∃ e ∈ es, e.near ship (10 : α) = true)
    (hdst : dist2 ship destination ≤ ((10 : α) + 5) ^ 2) :
    frameOutcome T asteroids ship destination = some (some false) := by
  have h := (shipHitsAsteroid_eq_true_iff T ship asteroids hdef).mpr hhit
  unfold frameOutcome
  rw [h]

/-- Witness for claim C10: ship and destination both at `(5, 5)`, on
the first edge of `astW` — both the Lost and the Won condition hold,
and the frame resolves to Lost. -/
theorem frameOutcome_lost_precedence_witness :
    frameOutcome qTrig [astW] ⟨5, 5⟩ ⟨5, 5⟩ = some (some false) :=
  frameOutcome_lost_precedence qTrig [astW] ⟨5, 5⟩ ⟨5, 5⟩
    (by intro a ha; rw [List.mem_singleton.mp ha, astW_edges]; rfl)
    ⟨astW, List.mem_singleton_self _, _, astW_edges,
      ⟨⟨0, 0⟩, ⟨20, 20⟩⟩, List.mem_cons_self _ _,
      by norm_num [Line.near, Line.cross, Line.dot, Line.squared_length]⟩
    (by norm_num [dist2])

end LevelTheorems

section AsteroidTheorems

variable {α : Type} [LinearOrderedField α]

/-- Helper: a successful `buildEdges` run produces one segment per
index. -/
theorem buildEdges_length (vs : List (Vec2 α)) :
    ∀ (idxs : List ℕ) (l : List (Line α)),
      buildEdges vs idxs = some l → l.length = idxs.length
  | [], l, h => by
    rw [buildEdges] at h
    obtain rfl := Option.some.inj h
    rfl
  | i :: rest, l, h => by
    rw [buildEdges] at h
    rcases hnew : Line.new (vs.getD i ⟨0, 0⟩) (vs.getD ((i + 1) % vs.length) ⟨0, 0⟩) with
      - | e
    · rw [hnew] at h; exact absurd h (by simp)
    · rw [hnew] at h
      rcases hrest : buildEdges vs rest with - | es
      · rw [hrest] at h; exact absurd h (by simp)
      · rw [hrest] at h
        obtain rfl := Option.some.inj h
        simpa using buildEdges_length vs rest es hrest

/-- Helper: the `k`-th segment a successful `buildEdges` run produces
connects `vertices[idxs[k]]` to `vertices[(idxs[k] + 1) % vertices.len()]`. -/
theorem buildEdges_getD (vs : List (Vec2 α)) :
    ∀ (idxs : List ℕ) (l : List (Line α)),
      buildEdges vs idxs = some l → ∀ k, k < idxs.length →
        l.getD k ⟨⟨0, 0⟩, ⟨0, 0⟩⟩ =
          ⟨vs.getD (idxs.getD k 0) ⟨0, 0⟩,
            vs.getD ((idxs.getD k 0 + 1) % vs.length) ⟨0, 0⟩⟩
  | [], _, _, k, hk => absurd hk (by simp)
  | i :: rest, l, h, k, hk => by
    rw [buildEdges] at h
    rcases hnew : Line.new (vs.getD i ⟨0, 0⟩) (vs.getD ((i + 1) % vs.length) ⟨0, 0⟩) with
      - | e
    · rw [hnew] at h; exact absurd h (by simp)
    · rw [hnew] at h
      rcases hrest : buildEdges vs rest with - | es
      · rw [hrest] at h; exact absurd h (by simp)
      · rw [hrest] at h
        obtain rfl := Option.some.inj h
        have hnew' : e = ⟨vs.getD i ⟨0, 0⟩, vs.getD ((i + 1) % vs.length) ⟨0, 0⟩⟩ := by
          unfold Line.new at hnew
          split_ifs at hnew
          exact (Option.some.inj hnew).symm
        match k with
        | 0 => simpa using hnew'
        | k + 1 =>
          simpa using buildEdges_getD vs rest es hrest k (by simpa using hk)

/-- Helper: `vertices()` returns one vertex per side. -/
theorem vertices_length (T : Trig α) (ast : Asteroid α) :
    (ast.vertices T).length = ast.sides := by
  unfold Asteroid.vertices
  rw [List.length_map, List.length_range]

/-- Helper: `(List.range n).getD k 0 = k` for `k < n`. -/
theorem range_getD (n k : ℕ) (hk : k < n) : (List.range n).getD k 0 = k := by
  rw [List.getD_eq_getElem?_getD, List.getElem?_range hk]
  rfl

/-- Claim C8: whenever `edges()` of an `n`-sided asteroid completes
(i.e. the degenerate-segment panic does not fire), it returns exactly
`n` segments forming a closed cycle: segment `k`'s endpoint is segment
`k+1`'s start point, and the last segment's endpoint is the first
segment's start point. -/
theorem edges_closed_cycle (T : Trig α) (ast : Asteroid α) (l : List (Line α))
    (h : ast.edges T = some l) :
    l.length = ast.sides ∧
    (∀ k, k + 1 < l.length →
      (l.getD k ⟨⟨0, 0⟩, ⟨0, 0⟩⟩).b = (l.getD (k + 1) ⟨⟨0, 0⟩, ⟨0, 0⟩⟩).a) ∧
    (0 < l.length →
      (l.getD (l.length - 1) ⟨⟨0, 0⟩, ⟨0, 0⟩⟩).b = (l.getD 0 ⟨⟨0, 0⟩, ⟨0, 0⟩⟩).a) := by
  unfold Asteroid.edges at h
  have hvlen := vertices_length T ast
  have hlen : l.length = (ast.vertices T).length := by
    simpa using buildEdges_length _ _ _ h
  have hget : ∀ k, k < (ast.vertices T).length →
      l.getD k ⟨⟨0, 0⟩, ⟨0, 0⟩⟩ =
        ⟨(ast.vertices T).getD k ⟨0, 0⟩,
          (ast.vertices T).getD ((k + 1) % (ast.vertices T).length) ⟨0, 0⟩⟩ := by
    intro k hk
    have := buildEdges_getD _ _ _ h k (by simpa using hk)
    rwa [range_getD _ _ hk] at this
  refine ⟨hlen.trans hvlen, fun k hk => ?_, fun hpos => ?_⟩
  · have hk1 : k + 1 < (ast.vertices T).length := hlen ▸ hk
    rw [hget k (Nat.lt_of_succ_lt hk1), hget (k + 1) hk1]
    simp [Nat.mod_eq_of_lt hk1]
  · have hpos' : 0 < (ast.vertices T).length := hlen ▸ hpos
    have hlast : (ast.vertices T).length - 1 < (ast.vertices T).length :=
      Nat.sub_lt hpos' Nat.one_pos
    rw [hlen, hget _ hlast, hget 0 hpos']
    simp [Nat.sub_add_cancel (Nat.one_le_iff_ne_zero.mpr hpos'.ne'), Nat.mod_self]

/-- Witness for claim C8 at the concrete asteroid `astW` (3 sides)
under `qTrig`. -/
theorem edges_closed_cycle_witness :
    ([⟨⟨0, 0⟩, ⟨20, 20⟩⟩, ⟨⟨20, 20⟩, ⟨40, 40⟩⟩, ⟨⟨40, 40⟩, ⟨0, 0⟩⟩] :
        List (Line ℚ)).length = astW.sides ∧
    (∀ k, k + 1 < ([⟨⟨0, 0⟩, ⟨20, 20⟩⟩, ⟨⟨20, 20⟩, ⟨40, 40⟩⟩, ⟨⟨40, 40⟩, ⟨0, 0⟩⟩] :
        List (Line ℚ)).length →
      (([⟨⟨0, 0⟩, ⟨20, 20⟩⟩, ⟨⟨20, 20⟩, ⟨40, 40⟩⟩, ⟨⟨40, 40⟩, ⟨0, 0⟩⟩] :
          List (Line ℚ)).getD k ⟨⟨0, 0⟩, ⟨0, 0⟩⟩).b =
        (([⟨⟨0, 0⟩, ⟨20, 20⟩⟩, ⟨⟨20, 20⟩, ⟨40, 40⟩⟩, ⟨⟨40, 40⟩, ⟨0, 0⟩⟩] :
          List (Line ℚ)).getD (k + 1) ⟨⟨0, 0⟩, ⟨0, 0⟩⟩).a) ∧
    (0 < ([⟨⟨0, 0⟩, ⟨20, 20⟩⟩, ⟨⟨20, 20⟩, ⟨40, 40⟩⟩, ⟨⟨40, 40⟩, ⟨0, 0⟩⟩] :
        List (Line ℚ)).length →
      (([⟨⟨0, 0⟩, ⟨20, 20⟩⟩, ⟨⟨20, 20⟩, ⟨40, 40⟩⟩, ⟨⟨40, 40⟩, ⟨0, 0⟩⟩] :
          List (Line ℚ)).getD
            (([⟨⟨0, 0⟩, ⟨20, 20⟩⟩, ⟨⟨20, 20⟩, ⟨40, 40⟩⟩, ⟨⟨40, 40⟩, ⟨0, 0⟩⟩] :
              List (Line ℚ)).length - 1) ⟨⟨0, 0⟩, ⟨0, 0⟩⟩).b =
        (([⟨⟨0, 0⟩, ⟨20, 20⟩⟩, ⟨⟨20, 20⟩, ⟨40, 40⟩⟩, ⟨⟨40, 40⟩, ⟨0, 0⟩⟩] :
          List (Line ℚ)).getD 0 ⟨⟨0, 0⟩, ⟨0, 0⟩⟩).a) :=
  edges_closed_cycle qTrig astW _ astW_edges

/-- Helper: if some candidate at offset `k` from the current index is
acceptable (and no earlier candidate panics in `edges()`), the
rejection loop returns an acceptable candidate from the stream within
`k` steps, for any fuel larger than `k`. -/
theorem random_asteroid_finds_good (T : Trig α) (ship : Vec2 α) (s : ℕ → Asteroid α)
    (k : ℕ) :
    ∀ i : ℕ, (∀ j, j ≤ k → ((s (i + j)).edges T).isSome) →
      isGoodCandidate T ship (s (i + k)) →
      ∃ m, m ≤ k ∧ isGoodCandidate T ship (s (i + m)) ∧
        ∀ fuel, k < fuel →
          Asteroid.random_asteroid T ship s i fuel = some (s (i + m)) := by
  induction k with
  | zero =>
    intro i hdef hgood
    refine ⟨0, le_refl 0, hgood, fun fuel hf => ?_⟩
    obtain ⟨es, hes, hany⟩ : isGoodCandidate T ship (s i) := by simpa using hgood
    match fuel, hf with
    | fuel + 1, _ =>
      rw [Asteroid.random_asteroid]
      rw [show s (i + 0) = s i by rw [Nat.add_zero]]
      rw [hes]
      simp [hany]
  | succ k IH =>
    intro i hdef hgood
    obtain ⟨es0, hes0⟩ := Option.isSome_iff_exists.mp
      (by simpa using hdef 0 (Nat.zero_le _))
    by_cases hany0 : (es0.any fun edge => edge.near ship (10 : α)) = true
    · have hdef' : ∀ j, j ≤ k → ((s (i + 1 + j)).edges T).isSome := fun j hj => by
        have := hdef (j + 1) (Nat.succ_le_succ hj)
        rwa [show i + (j + 1) = i + 1 + j by omega] at this
      have hgood' : isGoodCandidate T ship (s (i + 1 + k)) := by
        rwa [show i + 1 + k = i + (k + 1) by omega]
      obtain ⟨m, hm, hgm, hrun⟩ := IH (i + 1) hdef' hgood'
      refine ⟨m + 1, Nat.succ_le_succ hm,
        by rwa [show i + (m + 1) = i + 1 + m by omega], fun fuel hf => ?_⟩
      match fuel, hf with
      | fuel + 1, hf =>
        rw [Asteroid.random_asteroid, hes0]
        simp only [hany0, if_true]
        rw [hrun fuel (Nat.lt_of_succ_lt_succ hf)]
        rw [show i + 1 + m = i + (m + 1) by omega]
    · have hany0' : (es0.any fun edge => edge.near ship (10 : α)) = false :=
        Bool.eq_false_iff.mpr hany0
      refine ⟨0, Nat.zero_le _, by simpa using ⟨es0, hes0, hany0'⟩, fun fuel hf => ?_⟩
      match fuel, hf with
      | fuel + 1, _ =>
        rw [Asteroid.random_asteroid, hes0]
        simp [hany0']

/-- Claim C6: `random_asteroid(ship)` terminates for every random
stream that eventually yields a candidate whose edges all avoid the
ship (here: the first `k + 1` candidates construct their edges without
panic and candidate `k` is acceptable; fuel `k + 1` suffices), and the
returned asteroid has no edge within `SHIP_SIZE = 10` of the ship under
the proximity test, sides in `[3, 8)`, radius in `[5, 40)`, rotation in
`[0, 360)` and center within the screen bounds — the ranges every
stream candidate is drawn from. -/
theorem random_asteroid_terminates_valid (T : Trig α) (w h : α) (ship : Vec2 α)
    (s : ℕ → Asteroid α) (k : ℕ)
    (hranges : ∀ n, (s n).inRanges w h)
    (hdef : ∀ j, j ≤ k → ((s j).edges T).isSome)
    (hgood : isGoodCandidate T ship (s k)) :
    ∃ a, Asteroid.random_asteroid T ship s 0 (k + 1) = some a ∧
      (∃ es, a.edges T = some es ∧ ∀ e ∈ es, e.near ship (10 : α) = false) ∧
      a.inRanges w h := by
  obtain ⟨m, hm, hgm, hrun⟩ := random_asteroid_finds_good T ship s k 0
    (by simpa using hdef) (by simpa using hgood)
  obtain ⟨es, hes, hany⟩ := hgm
  refine ⟨s (0 + m), hrun (k + 1) (Nat.lt_succ_self k),
    ⟨es, hes, fun e he => ?_⟩, hranges (0 + m)⟩
  exact Bool.eq_false_iff.mpr (List.any_eq_false.mp hany e he)

/-- Witness for claim C6: the constant stream of `astW` candidates with
the ship at `(100, 0)`; the very first candidate is acceptable. -/
theorem random_asteroid_terminates_valid_witness :
    ∃ a, Asteroid.random_asteroid qTrig ⟨100, 0⟩ (fun _ => astW) 0 (0 + 1) = some a ∧
      (∃ es, a.edges qTrig = some es ∧
        ∀ e ∈ es, e.near (⟨100, 0⟩ : Vec2 ℚ) 10 = false) ∧
      a.inRanges (800 : ℚ) 600 :=
  random_asteroid_terminates_valid qTrig 800 600 ⟨100, 0⟩ (fun _ => astW) 0
    (fun _ => by norm_num [Asteroid.inRanges, astW])
    (fun j _ => by rw [astW_edges]; rfl)
    ⟨_, astW_edges, by
      norm_num [List.any, Line.near, Line.cross, Line.dot, Line.squared_length]⟩

/-- Helper: `buildEdges` succeeds when every `Line::new` call it makes
succeeds. -/
theorem buildEdges_total (vs : List (Vec2 α)) :
    ∀ idxs : List ℕ,
      (∀ i ∈ idxs,
        (Line.new (vs.getD i ⟨0, 0⟩) (vs.getD ((i + 1) % vs.length) ⟨0, 0⟩)).isSome) →
      ∃ l, buildEdges vs idxs = some l
  | [], _ => ⟨[], rfl⟩
  | i :: rest, h => by
    obtain ⟨e, he⟩ :=
      Option.isSome_iff_exists.mp (h i (List.mem_cons_self _ _))
    obtain ⟨es, hes⟩ :=
      buildEdges_total vs rest fun j hj => h j (List.mem_cons_of_mem _ hj)
    exact ⟨e :: es, by rw [buildEdges, he, hes]⟩

/-- Helper: real cosine and sine agree at two angles only when the
angles differ by an integer multiple of `2 * π`. -/
theorem cos_sin_eq_imp_angle_diff (x y : ℝ)
    (hc : Real.cos x = Real.cos y) (hs : Real.sin x = Real.sin y) :
    ∃ n : ℤ, (n : ℝ) * (2 * Real.pi) = x - y := by
  have h1 : Real.cos (x - y) = 1 := by
    rw [Real.cos_sub, hc, hs, ← sq, ← sq, add_comm]
    exact Real.sin_sq_add_cos_sq y
  exact (Real.cos_eq_one_iff _).mp h1

/-- Helper: the `i`-th vertex (for `i < sides`) in explicit form. -/
theorem vertices_getD (T : Trig α) (ast : Asteroid α) (i : ℕ) (hi : i < ast.sides) :
    (ast.vertices T).getD i ⟨0, 0⟩ =
      ⟨ast.pos.x + ast.radius *
          T.cos (ast.rotation + (i : α) * (2 * T.pi / (ast.sides : α))),
        ast.pos.y + ast.radius *
          T.sin (ast.rotation + (i : α) * (2 * T.pi / (ast.sides : α)))⟩ := by
  unfold Asteroid.vertices
  rw [List.getD_eq_getElem?_getD, List.getElem?_map, List.getElem?_range hi]
  rfl

/-- Claim C7: `Line::new` aborts (returns `none`) exactly when its two
endpoints are the identical point; and for every asteroid with
`radius > 0` and at least 3 sides, `edges()` under real trigonometry
never reaches that abort: consecutive vertices are always distinct, so
the degenerate-segment guard is unreachable from asteroid edge
construction. -/
theorem line_new_panic_iff_and_edges_total :
    (∀ a b : Vec2 ℚ, Line.new a b = none ↔ a = b) ∧
    (∀ ast : Asteroid ℝ, 0 < ast.radius → 3 ≤ ast.sides →
      ∃ l, ast.edges ⟨Real.pi, Real.cos, Real.sin⟩ = some l) := by
  constructor
  · rintro ⟨ax, ay⟩ ⟨bx, by'⟩
    unfold Line.new
    split_ifs with h
    · exact iff_of_true rfl (by rw [Vec2.mk.injEq]; exact h)
    · constructor
      · intro hsome; exact absurd hsome (by simp)
      · intro heq
        exact absurd ((Vec2.mk.injEq _ _ _ _).mp heq) h
  · intro ast hr hn
    apply buildEdges_total
    intro i hi
    rw [List.mem_range, vertices_length] at hi
    have hlen := vertices_length (⟨Real.pi, Real.cos, Real.sin⟩ : Trig ℝ) ast
    set n := ast.sides with hndef
    have hjlt : (i + 1) % (ast.vertices ⟨Real.pi, Real.cos, Real.sin⟩).length < n := by
      rw [hlen]; exact Nat.mod_lt _ (by omega)
    set j := (i + 1) % (ast.vertices ⟨Real.pi, Real.cos, Real.sin⟩).length with hjdef
    have hij : i ≠ j := by
      rcases Nat.lt_or_ge (i + 1) n with hlt | hge
      · rw [hjdef, hlen, Nat.mod_eq_of_lt hlt]; omega
      · have hin : i + 1 = n := by omega
        rw [hjdef, hlen, hin, Nat.mod_self]; omega
    rw [Line.new]
    split_ifs with heq
    · exfalso
      obtain ⟨hx, hy⟩ := heq
      rw [vertices_getD _ ast i hi, vertices_getD _ ast j hjlt] at hx hy
      have hcos' : (⟨Real.pi, Real.cos, Real.sin⟩ : Trig ℝ).cos = Real.cos := rfl
      have hsin' : (⟨Real.pi, Real.cos, Real.sin⟩ : Trig ℝ).sin = Real.sin := rfl
      have hpi' : (⟨Real.pi, Real.cos, Real.sin⟩ : Trig ℝ).pi = Real.pi := rfl
      rw [hcos', hpi'] at hx
      rw [hsin', hpi'] at hy
      simp only at hx hy
      have hc : Real.cos (ast.rotation + (i : ℝ) * (2 * Real.pi / (n : ℝ))) =
          Real.cos (ast.rotation + (j : ℝ) * (2 * Real.pi / (n : ℝ))) :=
        mul_left_cancel₀ hr.ne' (add_left_cancel hx)
      have hs : Real.sin (ast.rotation + (i : ℝ) * (2 * Real.pi / (n : ℝ))) =
          Real.sin (ast.rotation + (j : ℝ) * (2 * Real.pi / (n : ℝ))) :=
        mul_left_cancel₀ hr.ne' (add_left_cancel hy)
      obtain ⟨k, hk⟩ := cos_sin_eq_imp_angle_diff _ _ hc hs
      have hn0 : (n : ℝ) ≠ 0 := Nat.cast_ne_zero.mpr (by omega)
      have hpi0 : (2 * Real.pi) ≠ 0 := by positivity
      have hkn : (k : ℝ) * n = (i : ℝ) - j := by
        have h2 : (k : ℝ) * (2 * Real.pi) * n = ((i : ℝ) - j) * (2 * Real.pi) := by
          rw [hk]; field_simp; ring
        have h3 : ((k : ℝ) * n) * (2 * Real.pi) = ((i : ℝ) - j) * (2 * Real.pi) := by
          linear_combination h2
        exact mul_right_cancel₀ hpi0 h3
      have hz : k * (n : ℤ) = (i : ℤ) - j := by exact_mod_cast hkn
      have hiz : (i : ℤ) < n := by exact_mod_cast hi
      have hjz : (j : ℤ) < n := by exact_mod_cast hjlt
      have hij' : (i : ℤ) ≠ j := fun hcast => hij (by exact_mod_cast hcast)
      have hdvd : (n : ℤ) ∣ ((i : ℤ) - j) := ⟨k, by rw [← hz]; ring⟩
      have habs0 : (0 : ℤ) < |(i : ℤ) - j| :=
        abs_pos.mpr (sub_ne_zero.mpr hij')
      have hle := Int.le_of_dvd habs0 ((dvd_abs _ _).mpr hdvd)
      have hlt : |(i : ℤ) - j| < n :=
        abs_lt.mpr ⟨by omega, by omega⟩
      omega
    · simp

/-- Witness for claim C7: `Line::new` on the identical point `(0, 0)`
panics, and the unit triangle asteroid at the origin has well-defined
edges under real trigonometry. -/
theorem line_new_panic_iff_and_edges_total_witness :
    (Line.new (⟨0, 0⟩ : Vec2 ℚ) ⟨0, 0⟩ = none ↔ (⟨0, 0⟩ : Vec2 ℚ) = ⟨0, 0⟩) ∧
    ∃ l, (⟨⟨0, 0⟩, 3, 1, 0⟩ : Asteroid ℝ).edges ⟨Real.pi, Real.cos, Real.sin⟩ = some l :=
  ⟨line_new_panic_iff_and_edges_total.1 ⟨0, 0⟩ ⟨0, 0⟩,
    line_new_panic_iff_and_edges_total.2 ⟨⟨0, 0⟩, 3, 1, 0⟩ (by norm_num) (by norm_num)⟩

end AsteroidTheorems

section SweepTheorems

variable {α : Type} [LinearOrderedField α]

/-- Claim C9: `circle_render` is deterministic.  The embedding is a
pure function of exactly the inputs the claim lists (edge list, ship
center, destination, scan-count display value, ambient screen width,
and the per-frame interrupt-input trace): two executions on equal
inputs produce equal final sweep states, i.e. identical drawn-pixel
lists and identical exclusion maps; no other source of nondeterminism
exists in the model. -/
theorem circle_render_deterministic (T : Trig α) (e₁ e₂ : List (Line α))
    (c₁ c₂ d₁ d₂ : Vec2 α) (s₁ s₂ w₁ w₂ : ℕ) (t₁ t₂ : ℕ → Bool)
    (he : e₁ = e₂) (hc : c₁ = c₂) (hd : d₁ = d₂) (hs : s₁ = s₂) (hw : w₁ = w₂)
    (ht : ∀ i, t₁ i = t₂ i) :
    circle_render T e₁ c₁ d₁ s₁ w₁ t₁ = circle_render T e₂ c₂ d₂ s₂ w₂ t₂ := by
  have ht' : t₁ = t₂ := funext ht
  rw [he, hc, hd, hs, hw, ht']

/-- Witness for claim C9 at concrete inputs. -/
theorem circle_render_deterministic_witness :
    circle_render qTrig [] ⟨0, 0⟩ ⟨1, 1⟩ 2 24 (fun _ => false) =
      circle_render qTrig [] ⟨0, 0⟩ ⟨1, 1⟩ 2 24 (fun _ => false) :=
  circle_render_deterministic qTrig [] [] ⟨0, 0⟩ ⟨0, 0⟩ ⟨1, 1⟩ ⟨1, 1⟩ 2 2 24 24
    (fun _ => false) (fun _ => false) rfl rfl rfl rfl rfl (fun _ => rfl)

/-- Helper: an angle is absent from the exclusion map exactly when no
entry carries it. -/
theorem lookupA_eq_none_iff (a : ℕ) :
    ∀ m : List (ℕ × ℕ), lookupA a m = none ↔ countA a m = 0
  | [] => by simp [lookupA, countA]
  | (k, v) :: rest => by
    rw [lookupA, countA]
    by_cases hk : k = a
    · simp [hk]
    · simpa [hk] using lookupA_eq_none_iff a rest

/-- Helper: the pixel loop never touches exclusion-map entries whose
angle is not among the sampled angles: lookups and entry counts for
such an angle are unchanged. -/
theorem scanPixels_preserves (edges : List (Line α)) (r : ℕ) :
    ∀ (pixels : List (Vec2 α × ℕ)) (st : SweepState α) (a : ℕ),
      (∀ q ∈ pixels, q.2 ≠ a) →
      lookupA a (scanPixels edges r pixels st).excluded_angles =
          lookupA a st.excluded_angles ∧
        countA a (scanPixels edges r pixels st).excluded_angles =
          countA a st.excluded_angles
  | [], st, a, _ => ⟨rfl, rfl⟩
  | (pixel, angle) :: rest, st, a, hne => by
    have hangle : angle ≠ a := hne (pixel, angle) (List.mem_cons_self _ _)
    have hrest : ∀ q ∈ rest, q.2 ≠ a := fun q hq => hne q (List.mem_cons_of_mem _ hq)
    rw [scanPixels]
    split_ifs with hhit
    · obtain ⟨hl, hc⟩ := scanPixels_preserves edges r rest
        ⟨(angle, r) :: st.excluded_angles, st.drawn_pixels ++ [pixel]⟩ a hrest
      rw [hl, hc]
      constructor
      · rw [lookupA, if_neg hangle]
      · rw [countA, if_neg hangle, Nat.zero_add]
    · exact scanPixels_preserves edges r rest st a hrest

/-- Helper: the angles sampled by `pixels_in_circle` are the angles of
the full `0..=360*ANGLE_PRECISION` range that are absent from the
exclusion map. -/
theorem pixels_in_circle_map_snd (T : Trig α) (center : Vec2 α) (radius : α)
    (m : List (ℕ × ℕ)) :
    (pixels_in_circle T center radius m).map Prod.snd =
      (List.range (360 * ANGLE_PRECISION + 1)).filter
        fun angle => !(lookupA angle m).isSome := by
  unfold pixels_in_circle
  generalize List.range (360 * ANGLE_PRECISION + 1) = xs
  induction xs with
  | nil => rfl
  | cons x xs IH =>
    rw [List.filterMap_cons, List.filter_cons]
    by_cases hp : (lookupA x m).isSome
    · simp [hp, IH]
    · simp [hp, IH]

/-- Helper: an angle present in the exclusion map is skipped by the
angular sampling. -/
theorem not_mem_pixels_of_lookup_isSome (T : Trig α) (center : Vec2 α) (radius : α)
    (m : List (ℕ × ℕ)) (a : ℕ) (h : (lookupA a m).isSome) :
    a ∉ (pixels_in_circle T center radius m).map Prod.snd := by
  rw [pixels_in_circle_map_snd]
  intro hmem
  have := (List.mem_filter.mp hmem).2
  rw [h] at this
  exact Bool.noConfusion this

/-- Helper: the sampled angles are pairwise distinct within a frame. -/
theorem pixels_in_circle_snd_nodup (T : Trig α) (center : Vec2 α) (radius : α)
    (m : List (ℕ × ℕ)) :
    ((pixels_in_circle T center radius m).map Prod.snd).Nodup := by
  rw [pixels_in_circle_map_snd]
  exact (List.nodup_range _).filter _

/-- Helper: within one frame, the pixel loop inserts an angle at most
once — the entry count of any angle grows by at most one, and only when
that angle is among the (pairwise distinct) sampled angles. -/
theorem scanPixels_countA_le (edges : List (Line α)) (r : ℕ) :
    ∀ (pixels : List (Vec2 α × ℕ)) (st : SweepState α),
      ((pixels.map Prod.snd).Nodup) → ∀ a : ℕ,
      countA a (scanPixels edges r pixels st).excluded_angles ≤
        countA a st.excluded_angles +
          (if a ∈ pixels.map Prod.snd then 1 else 0)
  | [], st, _, a => by simp [scanPixels]
  | (pixel, angle) :: rest, st, hnodup, a => by
    rw [List.map_cons, List.nodup_cons] at hnodup
    obtain ⟨hnotin, hnodup'⟩ := hnodup
    have hcons : ∀ c, c ∈ List.map Prod.snd ((pixel, angle) :: rest) ↔
        (c = angle ∨ c ∈ List.map Prod.snd rest) := by
      intro c; rw [List.map_cons, List.mem_cons]
    by_cases hhit : (edges.any fun edge => edge.near pixel (3 / 10 : α)) = true
    · rw [scanPixels, if_pos hhit]
      have IH := scanPixels_countA_le edges r rest
        ⟨(angle, r) :: st.excluded_angles, st.drawn_pixels ++ [pixel]⟩ hnodup' a
      have hcnt : countA a
          ((⟨(angle, r) :: st.excluded_angles, st.drawn_pixels ++ [pixel]⟩ :
            SweepState α)).excluded_angles =
          (if angle = a then 1 else 0) + countA a st.excluded_angles := rfl
      rw [hcnt] at IH
      by_cases ha : angle = a
      · subst ha
        rw [if_pos rfl] at IH
        rw [if_neg hnotin] at IH
        rw [if_pos ((hcons angle).mpr (Or.inl rfl))]
        omega
      · rw [if_neg ha] at IH
        by_cases hmem : a ∈ List.map Prod.snd rest
        · rw [if_pos hmem] at IH
          rw [if_pos ((hcons a).mpr (Or.inr hmem))]
          omega
        · rw [if_neg hmem] at IH
          by_cases hmem' : a ∈ List.map Prod.snd ((pixel, angle) :: rest)
          · rw [if_pos hmem']; omega
          · rw [if_neg hmem']
            rcases (hcons a).not.mp hmem' with h
            omega
    · rw [scanPixels, if_neg hhit]
      have IH := scanPixels_countA_le edges r rest st hnodup' a
      by_cases hmem : a ∈ List.map Prod.snd rest
      · rw [if_pos hmem] at IH
        rw [if_pos ((hcons a).mpr (Or.inr hmem))]
        omega
      · rw [if_neg hmem] at IH
        by_cases hmem' : a ∈ List.map Prod.snd ((pixel, angle) :: rest)
        · rw [if_pos hmem']; omega
        · rw [if_neg hmem']; omega

/-- Helper: one frame preserves an existing exclusion-map entry (the
angle is skipped by the sampling, so it is neither re-inserted nor
touched): its looked-up radius and its entry count are unchanged. -/
theorem circleStep_preserves (T : Trig α) (edges : List (Line α)) (center : Vec2 α)
    (r : ℕ) (st : SweepState α) (a : ℕ) (h : (lookupA a st.excluded_angles).isSome) :
    lookupA a (circleStep T edges center r st).excluded_angles =
        lookupA a st.excluded_angles ∧
      countA a (circleStep T edges center r st).excluded_angles =
        countA a st.excluded_angles := by
  unfold circleStep
  refine scanPixels_preserves edges r _ st a fun q hq hqa => ?_
  exact not_mem_pixels_of_lookup_isSome T center (r : α) st.excluded_angles a h
    (List.mem_map.mpr ⟨q, hq, hqa⟩)

/-- Helper: one frame keeps every angle's entry count at most one: an
angle already in the map is skipped, and a fresh angle is inserted at
most once. -/
theorem circleStep_countA_le_one (T : Trig α) (edges : List (Line α)) (center : Vec2 α)
    (r : ℕ) (st : SweepState α) (hinv : ∀ a, countA a st.excluded_angles ≤ 1) :
    ∀ a, countA a (circleStep T edges center r st).excluded_angles ≤ 1 := by
  intro a
  by_cases hsome : (lookupA a st.excluded_angles).isSome
  · rw [(circleStep_preserves T edges center r st a hsome).2]
    exact hinv a
  · have h0 : countA a st.excluded_angles = 0 :=
      (lookupA_eq_none_iff a _).mp (Option.not_isSome_iff_eq_none.mp hsome)
    unfold circleStep
    refine le_trans (scanPixels_countA_le edges r _ st
      (pixels_in_circle_snd_nodup T center (r : α) st.excluded_angles) a) ?_
    rw [h0]
    split_ifs <;> omega

/-- Helper: the frame loop preserves an existing exclusion-map entry
for the rest of the sweep: the entry is never removed, updated or
re-inserted. -/
theorem sweepLoop_preserves (T : Trig α) (edges : List (Line α)) (center : Vec2 α)
    (interrupt : ℕ → Bool) :
    ∀ (radii : List ℕ) (i : ℕ) (st : SweepState α) (a R : ℕ),
      lookupA a st.excluded_angles = some R →
      lookupA a (sweepLoop T edges center interrupt radii i st).excluded_angles =
          some R ∧
        countA a (sweepLoop T edges center interrupt radii i st).excluded_angles =
          countA a st.excluded_angles
  | [], _, _, _, _, h => ⟨h, rfl⟩
  | r :: rs, i, st, a, R, h => by
    rw [sweepLoop]
    split_ifs with hint
    · exact ⟨h, rfl⟩
    · have hsome : (lookupA a st.excluded_angles).isSome = true := by
        rw [h]; rfl
      obtain ⟨hl, hc⟩ := circleStep_preserves T edges center r st a hsome
      obtain ⟨hl', hc'⟩ := sweepLoop_preserves T edges center interrupt rs (i + 1)
        (circleStep T edges center r st) a R (by rw [hl, h])
      exact ⟨hl', by rw [hc', hc]⟩

/-- Helper: the frame loop keeps every angle's entry count at most
one. -/
theorem sweepLoop_countA_le_one (T : Trig α) (edges : List (Line α)) (center : Vec2 α)
    (interrupt : ℕ → Bool) :
    ∀ (radii : List ℕ) (i : ℕ) (st : SweepState α),
      (∀ a, countA a st.excluded_angles ≤ 1) →
      ∀ a, countA a (sweepLoop T edges center interrupt radii i st).excluded_angles ≤ 1
  | [], _, _, hinv, a => hinv a
  | r :: rs, i, st, hinv, a => by
    rw [sweepLoop]
    split_ifs with hint
    · exact hinv a
    · exact sweepLoop_countA_le_one T edges center interrupt rs (i + 1)
        (circleStep T edges center r st)
        (circleStep_countA_le_one T edges center r st hinv) a

/-- Claim C3: within one `circle_render` sweep, (1) each discretized
angle is inserted into the exclusion map at most once (every angle's
final entry count is at most one, starting from the empty map); (2) an
entry `(a, R)` present in the sweep state is never removed, updated or
re-inserted by the remaining frames — in particular once excluded at
radius `R`, `a` is never excluded again at any radius, a fortiori at a
radius `≤ R`; and (3) an already-excluded angle is skipped by every
later frame's angular sampling. -/
theorem exclusion_map_once_and_monotone :
    (∀ (T : Trig α) (edges : List (Line α)) (center destination : Vec2 α)
        (scans w : ℕ) (interrupt : ℕ → Bool) (a : ℕ),
      countA a (circle_render T edges center destination scans w
          interrupt).excluded_angles ≤ 1) ∧
    (∀ (T : Trig α) (edges : List (Line α)) (center : Vec2 α)
        (interrupt : ℕ → Bool) (radii : List ℕ) (i : ℕ) (st : SweepState α)
        (a R : ℕ), lookupA a st.excluded_angles = some R →
      lookupA a (sweepLoop T edges center interrupt radii i st).excluded_angles =
          some R ∧
        countA a (sweepLoop T edges center interrupt radii i st).excluded_angles =
          countA a st.excluded_angles) ∧
    (∀ (T : Trig α) (center : Vec2 α) (radius : α) (m : List (ℕ × ℕ)) (a : ℕ),
      (lookupA a m).isSome →
      a ∉ (pixels_in_circle T center radius m).map Prod.snd) := by
  refine ⟨fun T edges center destination scans w interrupt a => ?_,
    sweepLoop_preserves, not_mem_pixels_of_lookup_isSome⟩
  unfold circle_render
  exact sweepLoop_countA_le_one T edges center interrupt (scanRadii w) 0
    ⟨[], []⟩ (fun _ => Nat.le_succ 0) a

/-- Witness for claim C3: part (1) on a tiny concrete render, part (2)
with the concrete pre-excluded entry `(5, 10)` and no remaining frames,
part (3) at a concrete frame against the map `[(5, 10)]`. -/
theorem exclusion_map_once_and_monotone_witness :
    countA 0 (circle_render qTrig [] ⟨0, 0⟩ ⟨0, 0⟩ 0 10
        (fun _ => false)).excluded_angles ≤ 1 ∧
    (lookupA 5 (sweepLoop qTrig [] ⟨0, 0⟩ (fun _ => false) [] 0
          ⟨[(5, 10)], []⟩).excluded_angles = some 10 ∧
      countA 5 (sweepLoop qTrig [] ⟨0, 0⟩ (fun _ => false) [] 0
          ⟨[(5, 10)], []⟩).excluded_angles = countA 5 [(5, 10)]) ∧
    5 ∉ (pixels_in_circle qTrig ⟨0, 0⟩ 17 [(5, 10)]).map Prod.snd :=
  ⟨exclusion_map_once_and_monotone.1 qTrig [] ⟨0, 0⟩ ⟨0, 0⟩ 0 10 (fun _ => false) 0,
    exclusion_map_once_and_monotone.2.1 qTrig [] ⟨0, 0⟩ (fun _ => false) [] 0
      ⟨[(5, 10)], []⟩ 5 10 (by rw [lookupA, if_pos rfl]),
    exclusion_map_once_and_monotone.2.2 qTrig ⟨0, 0⟩ 17 [(5, 10)] 5
      (by rw [lookupA, if_pos rfl]; rfl)⟩

end SweepTheorems

end Wavey
